import Mathlib

/-!
# Verification of the I2C display repository

Shallow embedding of the two core mechanisms of the repository:

* the windowed-text renderer `scroll_window`, re-implemented in near-identical
  form in `crypto.py`, `joke.py`, `fact.py` and `word_improved.py`
  (strings are modelled as `List Char`, wall-clock timestamps as `ℚ`);
* the rotation supervisor `i2c_rotator.py` (`normalize_scripts`,
  `stop_process`, and the run-forever loop of `main`), modelled as an
  event-trace semantics driven by environment oracles that decide whether a
  launch succeeds and when a child's exit becomes visible to `poll()`.
-/

namespace I2C

/-- Display width in columns: `COLS = 16` (the `cols=16` 16x2 device) in every
display script; `crypto.py` names the same constant `COLS` locally inside
`scroll_window`. -/
def COLS : Nat := 16

/-- Python `s.ljust(w)`: pad `s` on the right with spaces to length `w`
(identity when `s` already has at least `w` characters). -/
def ljust (s : List Char) (w : Nat) : List Char :=
  s ++ List.replicate (w - s.length) ' '

/-- Python `int()` on a rational: truncation toward zero. -/
def pyint (q : ℚ) : ℤ := if 0 ≤ q then ⌊q⌋ else ⌈q⌉

/-- Constant `SCROLL_GAP = "    "` (four spaces), the same constant in every display
script that scrolls. -/
def SCROLL_GAP : List Char := [' ', ' ', ' ', ' ']

/-- Common body of `scroll_window(full_s, base_time, now_ts)` as written in
`crypto.py` (lines 123-138), parametrised by the per-script constants
`STATIC_DISPLAY` (the hold duration) and `SCROLL_STEP` (seconds per scroll
step).  `joke.py`, `fact.py` and `word_improved.py` contain the same body
behind an extra empty-string guard (see their definitions below).
Python's `int(elapsed / SCROLL_STEP)` is `pyint`, `step % total` is `Int.emod`
(both agree with Python on a non-negative dividend and positive divisor), and
the slice `wrapped[pos:pos+COLS]` with `0 ≤ pos` is `drop`/`take`. -/
def scroll_window_core (static_display scroll_step : ℚ) (full_s : List Char)
    (base_time now_ts : ℚ) : List Char :=
  if full_s.length ≤ COLS then ljust full_s COLS
  else
    let static_until := base_time + static_display
    if now_ts < static_until then ljust (full_s.take COLS) COLS
    else
      let scroll := full_s ++ SCROLL_GAP
      let total : ℤ := scroll.length
      let elapsed := now_ts - static_until
      let step := pyint (elapsed / scroll_step)
      let pos := step % total
      let wrapped := scroll ++ scroll
      (wrapped.drop pos.toNat).take COLS

/-- Function `scroll_window` from `crypto.py` (`STATIC_DISPLAY = 5.0`,
`SCROLL_STEP = 0.5`). -/
def crypto_scroll_window (full_s : List Char) (base_time now_ts : ℚ) :
    List Char :=
  scroll_window_core 5 (1/2) full_s base_time now_ts

/-- Function `scroll_window` from `joke.py` (`STATIC_DISPLAY = 2.0`,
`SCROLL_STEP = 0.15`); it starts with `if not full_s: return "".ljust(COLS)`,
a case the `len(full_s) <= COLS` branch of the common body also covers. -/
def joke_scroll_window (full_s : List Char) (base_time now_ts : ℚ) :
    List Char :=
  if full_s = [] then ljust [] COLS
  else scroll_window_core 2 (3/20) full_s base_time now_ts

/-- Function `scroll_window` from `fact.py` (`STATIC_DISPLAY = 2.5`,
`SCROLL_STEP = 0.15`), with the same empty-string guard as `joke.py`. -/
def fact_scroll_window (full_s : List Char) (base_time now_ts : ℚ) :
    List Char :=
  if full_s = [] then ljust [] COLS
  else scroll_window_core (5/2) (3/20) full_s base_time now_ts

/-- Function `scroll_window` from `word_improved.py` (`STATIC_DISPLAY = 2.0`,
`SCROLL_STEP = 0.15`), with the same empty-string guard as `joke.py`. -/
def word_scroll_window (full_s : List Char) (base_time now_ts : ℚ) :
    List Char :=
  if full_s = [] then ljust [] COLS
  else scroll_window_core 2 (3/20) full_s base_time now_ts

/-- Length of `scroll = full_s + SCROLL_GAP`, the scroll cycle length. -/
def scroll_total (full_s : List Char) : ℤ := ((full_s ++ SCROLL_GAP).length : ℤ)

/-- The scroll position the spec describes:
`floor(elapsed / step_interval) mod len(full_text + gap)`. -/
def scroll_pos (static_display scroll_step : ℚ) (full_s : List Char)
    (base_time now_ts : ℚ) : ℤ :=
  ⌊(now_ts - (base_time + static_display)) / scroll_step⌋ % scroll_total full_s

/-- The width-`COLS` window starting at position `p` of the doubled scroll
string `(full_text + gap) + (full_text + gap)`. -/
def window_at (full_s : List Char) (p : ℤ) : List Char :=
  (((full_s ++ SCROLL_GAP) ++ (full_s ++ SCROLL_GAP)).drop p.toNat).take COLS

lemma ljust_length (s : List Char) (w : Nat) :
    (ljust s w).length = max s.length w := by
  simp [ljust]
  omega

lemma ljust_of_length_eq (s : List Char) (w : Nat) (h : s.length = w) :
    ljust s w = s := by
  simp [ljust, h]

lemma scroll_window_core_short (sd ss : ℚ) (full_s : List Char)
    (base now : ℚ) (h : full_s.length ≤ COLS) :
    scroll_window_core sd ss full_s base now = ljust full_s COLS := by
  simp [scroll_window_core, h]

lemma scroll_window_core_hold (sd ss : ℚ) (full_s : List Char)
    (base now : ℚ) (hlen : COLS < full_s.length) (hnow : now < base + sd) :
    scroll_window_core sd ss full_s base now = full_s.take COLS := by
  rw [scroll_window_core, if_neg (by omega), if_pos hnow,
    ljust_of_length_eq _ _ (by simp; omega)]

lemma scroll_window_core_scroll (sd ss : ℚ) (full_s : List Char)
    (base now : ℚ) (hlen : COLS < full_s.length) (hnow : base + sd ≤ now)
    (hss : 0 < ss) :
    scroll_window_core sd ss full_s base now =
      window_at full_s (scroll_pos sd ss full_s base now) := by
  rw [scroll_window_core, if_neg (by omega), if_neg (not_lt.mpr hnow)]
  have hq : (0 : ℚ) ≤ (now - (base + sd)) / ss :=
    div_nonneg (by linarith) hss.le
  simp only [pyint, if_pos hq]
  rfl

lemma scroll_window_core_length (sd ss : ℚ) (full_s : List Char)
    (base now : ℚ) :
    (scroll_window_core sd ss full_s base now).length = COLS := by
  by_cases h1 : full_s.length ≤ COLS
  · rw [scroll_window_core_short _ _ _ _ _ h1, ljust_length]
    omega
  · push_neg at h1
    by_cases h2 : now < base + sd
    · rw [scroll_window_core_hold _ _ _ _ _ h1 h2]
      simp [COLS] at h1 ⊢
      omega
    · rw [scroll_window_core, if_neg (by omega), if_neg h2]
      have htot : (0 : ℤ) < ((full_s ++ SCROLL_GAP).length : ℤ) := by
        simp [SCROLL_GAP]
        omega
      have hp0 : 0 ≤ pyint ((now - (base + sd)) / ss) %
          ((full_s ++ SCROLL_GAP).length : ℤ) :=
        Int.emod_nonneg _ (ne_of_gt htot)
      have hp1 : pyint ((now - (base + sd)) / ss) %
          ((full_s ++ SCROLL_GAP).length : ℤ) <
          ((full_s ++ SCROLL_GAP).length : ℤ) :=
        Int.emod_lt_of_pos _ htot
      simp only [List.length_take, List.length_drop, List.length_append,
        SCROLL_GAP, List.length_cons, List.length_nil, COLS] at *
      omega

lemma scroll_pos_advance (sd ss : ℚ) (full_s : List Char) (base now : ℚ)
    (hss : ss ≠ 0) :
    scroll_pos sd ss full_s base (now + ss) =
      (scroll_pos sd ss full_s base now + 1) % scroll_total full_s := by
  unfold scroll_pos
  have h : (now + ss - (base + sd)) / ss = (now - (base + sd)) / ss + 1 := by
    field_simp
    ring
  rw [h, Int.floor_add_one, Int.add_emod]
  conv_rhs => rw [Int.add_emod]
  rw [Int.emod_emod_of_dvd _ dvd_rfl]

/-- C2: in the scrolling phase (`len(full_text) > width` and
`current_time ≥ base_time + static_hold_seconds`), the renderer returns the
width-length window of the doubled string `(full_text+gap)+(full_text+gap)`
starting at `floor(elapsed / step_interval) mod len(full_text+gap)`; proved
for `crypto.py` (hold 5 s, step 0.5 s) and `word_improved.py`
(hold 2 s, step 0.15 s). -/
theorem claim_C2 :
    (∀ (full_s : List Char) (base now : ℚ), COLS < full_s.length →
      base + 5 ≤ now →
      crypto_scroll_window full_s base now =
        window_at full_s (scroll_pos 5 (1/2) full_s base now)) ∧
    (∀ (full_s : List Char) (base now : ℚ), COLS < full_s.length →
      base + 2 ≤ now →
      word_scroll_window full_s base now =
        window_at full_s (scroll_pos 2 (3/20) full_s base now)) := by
  constructor
  · intro f b n h1 h2
    exact scroll_window_core_scroll _ _ _ _ _ h1 h2 (by norm_num)
  · intro f b n h1 h2
    have hne : f ≠ [] := by
      intro h
      rw [h] at h1
      simp [COLS] at h1
    rw [word_scroll_window, if_neg hne]
    exact scroll_window_core_scroll _ _ _ _ _ h1 h2 (by norm_num)

theorem claim_C2_witness :
    crypto_scroll_window (List.replicate 20 'b') 0 6 =
      window_at (List.replicate 20 'b')
        (scroll_pos 5 (1/2) (List.replicate 20 'b') 0 6) :=
  claim_C2.1 (List.replicate 20 'b') 0 6 (by decide) (by norm_num)

/-- C3: the renderer is deterministic (identical inputs at the same
`current_time` give the identical window), and once past the hold phase a
call one `step_interval` later starts exactly one position further (modulo
the length of `full_text + gap`); proved for `crypto.py` and `joke.py`. -/
theorem claim_C3 :
    (∀ (full_s : List Char) (base t1 t2 : ℚ), t1 = t2 →
      crypto_scroll_window full_s base t1 = crypto_scroll_window full_s base t2) ∧
    (∀ (full_s : List Char) (base t1 t2 : ℚ), t1 = t2 →
      joke_scroll_window full_s base t1 = joke_scroll_window full_s base t2) ∧
    (∀ (full_s : List Char) (base now : ℚ), COLS < full_s.length →
      base + 5 ≤ now →
      crypto_scroll_window full_s base (now + 1/2) =
        window_at full_s
          ((scroll_pos 5 (1/2) full_s base now + 1) % scroll_total full_s)) ∧
    (∀ (full_s : List Char) (base now : ℚ), COLS < full_s.length →
      base + 2 ≤ now →
      joke_scroll_window full_s base (now + 3/20) =
        window_at full_s
          ((scroll_pos 2 (3/20) full_s base now + 1) % scroll_total full_s)) := by
  refine ⟨fun f b t1 t2 h => by rw [h], fun f b t1 t2 h => by rw [h], ?_, ?_⟩
  · intro f b n h1 h2
    rw [← scroll_pos_advance 5 (1/2) f b n (by norm_num)]
    exact scroll_window_core_scroll _ _ _ _ _ h1 (by linarith) (by norm_num)
  · intro f b n h1 h2
    have hne : f ≠ [] := by
      intro h
      rw [h] at h1
      simp [COLS] at h1
    rw [← scroll_pos_advance 2 (3/20) f b n (by norm_num),
      joke_scroll_window, if_neg hne]
    exact scroll_window_core_scroll _ _ _ _ _ h1 (by linarith) (by norm_num)

theorem claim_C3_witness :
    crypto_scroll_window (List.replicate 20 'c') 0 (5 + 1/2) =
      window_at (List.replicate 20 'c')
        ((scroll_pos 5 (1/2) (List.replicate 20 'c') 0 5 + 1) %
          scroll_total (List.replicate 20 'c')) :=
  claim_C3.2.2.1 (List.replicate 20 'c') 0 5 (by decide) (by norm_num)

/-- C5: in the static hold phase (`len(full_text) > width` and
`current_time < base_time + static_hold_seconds`), the renderer returns
exactly the leftmost `width` characters of `full_text`; proved for
`crypto.py` (hold 5 s) and `fact.py` (hold 2.5 s). -/
theorem claim_C5 :
    (∀ (full_s : List Char) (base now : ℚ), COLS < full_s.length →
      now < base + 5 →
      crypto_scroll_window full_s base now = full_s.take COLS) ∧
    (∀ (full_s : List Char) (base now : ℚ), COLS < full_s.length →
      now < base + 5/2 →
      fact_scroll_window full_s base now = full_s.take COLS) := by
  constructor
  · intro f b n h1 h2
    exact scroll_window_core_hold _ _ _ _ _ h1 h2
  · intro f b n h1 h2
    have hne : f ≠ [] := by
      intro h
      rw [h] at h1
      simp [COLS] at h1
    rw [fact_scroll_window, if_neg hne]
    exact scroll_window_core_hold _ _ _ _ _ h1 h2

theorem claim_C5_witness :
    crypto_scroll_window (List.replicate 30 'x') 0 1 =
      (List.replicate 30 'x').take COLS :=
  claim_C5.1 (List.replicate 30 'x') 0 1 (by decide) (by norm_num)

/-- C6: the renderer called with empty text returns a blank line padded to
exactly `width` characters (and, being a total function, raises no error);
proved for `joke.py` and `crypto.py`. -/
theorem claim_C6 : ∀ (base now : ℚ),
    joke_scroll_window [] base now = List.replicate COLS ' ' ∧
    crypto_scroll_window [] base now = List.replicate COLS ' ' := by
  intro b n
  constructor
  · simp [joke_scroll_window, ljust]
  · simp [crypto_scroll_window, scroll_window_core, ljust, COLS]

/-- C10: the renderer always returns a string of length exactly the display
width (16), in the short-text branch, the hold phase and the scrolling phase
alike; proved for `crypto.py` and `word_improved.py`. -/
theorem claim_C10 : ∀ (full_s : List Char) (base now : ℚ),
    (crypto_scroll_window full_s base now).length = COLS ∧
    (word_scroll_window full_s base now).length = COLS := by
  intro f b n
  refine ⟨scroll_window_core_length _ _ _ _ _, ?_⟩
  rw [word_scroll_window]
  by_cases h : f = []
  · rw [if_pos h, ljust_length]
    simp
  · rw [if_neg h]
    exact scroll_window_core_length _ _ _ _ _

/-- The scroll-relevant state of `main` in `crypto.py`: the previously
displayed BTC line and the scroll base time. -/
structure CryptoState where
  btc_full_last : String
  scroll_base_time : ℚ
  deriving DecidableEq

/-- The base-time update on a successful fetch in `main` of `crypto.py`
(lines 175-182): `btc_full` is the newly built BTC line;
`if btc_full != btc_full_last: btc_full_last = btc_full;
scroll_base_time = now`. -/
def crypto_on_fetch (st : CryptoState) (btc_full : String) (now : ℚ) :
    CryptoState :=
  if btc_full ≠ st.btc_full_last then ⟨btc_full, now⟩ else st

/-- The scroll-relevant state of `main` in `joke.py`: the displayed text, the
scroll base time and the last fetch time. -/
structure JokeState where
  text : String
  base_time : ℚ
  last_fetch : ℚ
  deriving DecidableEq

/-- The fetch branch of `main` in `joke.py` (lines 51-61): on a successful
fetch the new text is installed and `base_time = now`; on a failed fetch the
placeholder text is installed and `base_time = now`; either way
`last_fetch = now`.  The assignment to `base_time` is unconditional: the
newly fetched text is never compared with the text already displayed. -/
def joke_on_fetch (st : JokeState) (fetched : Option String) (now : ℚ) :
    JokeState :=
  match fetched with
  | some txt => ⟨txt, now, now⟩
  | none => ⟨"No joke right now.", now, now⟩

/-- C4 counterexample: the claim says that in *every* display program's
refresh loop `base_time` is reassigned only when the fetched content differs
from the displayed content.  In `joke.py`, a fetch that returns exactly the
text already displayed still reassigns `base_time` to the current time. -/
theorem claim_C4_counterexample :
    (joke_on_fetch ⟨"Same joke", 0, 0⟩ (some "Same joke") 60).text =
      "Same joke" ∧
    (joke_on_fetch ⟨"Same joke", 0, 0⟩ (some "Same joke") 60).base_time ≠ 0 := by
  constructor
  · rfl
  · norm_num [joke_on_fetch]

/-- C4 amended: in `crypto.py` the reset rule holds as claimed —
`scroll_base_time` is reassigned to `now` exactly when the newly built text
differs from the previously displayed one, and the state is left untouched
on a refresh that yields identical content; in `joke.py`, however,
`base_time` is reassigned to `now` on every fetch, whether or not the
fetched text equals the displayed one. -/
theorem claim_C4_amended :
    (∀ (st : CryptoState) (s : String) (now : ℚ),
      crypto_on_fetch st s now =
        if s = st.btc_full_last then st else ⟨s, now⟩) ∧
    (∀ (st : JokeState) (fetched : Option String) (now : ℚ),
      (joke_on_fetch st fetched now).base_time = now) := by
  constructor
  · intro st s now
    by_cases h : s = st.btc_full_last <;> simp [crypto_on_fetch, h]
  · intro st fetched now
    cases fetched <;> rfl

/-- A Python value as it may occur inside an entry of the `SCRIPTS`
configuration list of `i2c_rotator.py`: a string, an `int`, a `float`, or
anything else. -/
inductive PyVal
  | str (s : String)
  | int (n : ℤ)
  | float (q : ℚ)
  | other
  deriving DecidableEq

/-- One entry of the `SCRIPTS` list: a bare string, a `list`/`tuple` of
values, or anything else (skipped by `normalize_scripts` with a log). -/
inductive ScriptEntry
  | str (s : String)
  | seq (elems : List PyVal)
  | other
  deriving DecidableEq

/-- Constant `DEFAULT_DURATION = 300` from `i2c_rotator.py`. -/
def DEFAULT_DURATION : ℤ := 300

/-- Python `isinstance(v, (int, float))`. -/
def isNum (v : PyVal) : Bool :=
  match v with
  | .int _ => true
  | .float _ => true
  | _ => false

/-- Python `int(v)` on an int-or-float value (truncation toward zero for a
float); other cases are unreachable where this is used. -/
def pyValToInt (v : PyVal) : ℤ :=
  match v with
  | .int n => n
  | .float q => pyint q
  | _ => 0

/-- Function `normalize_scripts` from `i2c_rotator.py` (lines 54-66): a bare string
becomes `(path, DEFAULT_DURATION)`; a list/tuple with at least one element
yields `(entry[0], int(dur))` where `dur` is `entry[1]` when present and
numeric, else `DEFAULT_DURATION`; every other entry is skipped. -/
def normalize_scripts : List ScriptEntry → List (PyVal × ℤ)
  | [] => []
  | ScriptEntry.str s :: rest =>
      (PyVal.str s, DEFAULT_DURATION) :: normalize_scripts rest
  | ScriptEntry.seq [] :: rest => normalize_scripts rest
  | ScriptEntry.seq (p :: more) :: rest =>
      (p, match more with
          | v :: _ => if isNum v then pyValToInt v else DEFAULT_DURATION
          | [] => DEFAULT_DURATION) :: normalize_scripts rest
  | ScriptEntry.other :: rest => normalize_scripts rest

/-- An entry in one of the two shapes the claim speaks about: a bare string,
or a `(program_reference, duration_seconds)` pair with an integer duration. -/
def wellFormedEntry (e : ScriptEntry) : Bool :=
  match e with
  | ScriptEntry.str _ => true
  | ScriptEntry.seq [_, PyVal.int _] => true
  | _ => false

/-- The normalized image of a well-formed entry. -/
def normalizeOne (e : ScriptEntry) : PyVal × ℤ :=
  match e with
  | ScriptEntry.str s => (PyVal.str s, DEFAULT_DURATION)
  | ScriptEntry.seq (p :: PyVal.int d :: _) => (p, d)
  | _ => (PyVal.other, 0)

/-- C9: on a configuration whose entries are each a bare string or a
`(program, integer-duration)` pair, `normalize_scripts` is exactly the
order-preserving map sending a bare string to `(path, DEFAULT_DURATION)` and
a pair to `(path, stated duration)`. -/
theorem claim_C9 : ∀ (l : List ScriptEntry),
    (∀ e ∈ l, wellFormedEntry e = true) →
    normalize_scripts l = l.map normalizeOne := by
  intro l
  induction l with
  | nil => intro _; rfl
  | cons e rest ih =>
    intro h
    have he : wellFormedEntry e = true := h e (by simp)
    have hrest := ih fun x hx => h x (by simp [hx])
    match e, he with
    | ScriptEntry.str s, _ =>
        simp [normalize_scripts, normalizeOne, hrest]
    | ScriptEntry.seq [p, PyVal.int d], _ =>
        simp [normalize_scripts, normalizeOne, isNum, pyValToInt, hrest]

theorem claim_C9_witness :
    normalize_scripts
        [ScriptEntry.str "/root/I2C/sysmon_lcd.py",
         ScriptEntry.seq [PyVal.str "/root/I2C/blink.py", PyVal.int 2]] =
      [(PyVal.str "/root/I2C/sysmon_lcd.py", DEFAULT_DURATION),
       (PyVal.str "/root/I2C/blink.py", 2)] := by
  have h := claim_C9
    [ScriptEntry.str "/root/I2C/sysmon_lcd.py",
     ScriptEntry.seq [PyVal.str "/root/I2C/blink.py", PyVal.int 2]]
    (by decide)
  simpa [normalizeOne] using h

/-- Whether `p.poll()` reports the child as exited at check number `k`, when
the exit first becomes visible at check `e` (`none` = not within the window
under consideration).  Once visible, it stays visible: `poll()` keeps
returning the exit code of a terminated child. -/
def pollSees (e? : Option Nat) (k : Nat) : Bool :=
  match e? with
  | some e => decide (e ≤ k)
  | none => false

/-- The grace-period loop of `stop_process` in `i2c_rotator.py`
(`for _ in range(40): if p.poll() is not None: break; time.sleep(0.1)`):
starting at iteration `i`, returns the number of 0.1 s sleeps performed by
the time the loop is left (the loop checks `poll()` before each sleep, so a
break at check `i` means `i` sleeps were performed; the full loop performs
40 sleeps). -/
def stopLoop (e? : Option Nat) (i : Nat) : Nat :=
  if 40 ≤ i then 40
  else if pollSees e? i then i
  else stopLoop e? (i + 1)
termination_by 40 - i
decreasing_by omega

/-- Result of `stop_process`: which signals were sent and how many 0.1 s
grace polls were slept through. -/
structure StopResult where
  sigtermSent : Bool
  sleeps : Nat
  sigkillSent : Bool
  deriving DecidableEq

/-- Function `stop_process(p)` from `i2c_rotator.py` (lines 92-112): `None` returns
immediately; otherwise SIGTERM is sent to the process group, the grace loop
polls up to 40 times at 0.1 s, and SIGKILL is sent iff `p.poll()` is still
`None` after the loop (check number `sleeps`).  The oracle `e?` is the check
number at which the child's exit first becomes visible to `poll()`. -/
def stop_process (p : Option (Option Nat)) : StopResult :=
  match p with
  | none => ⟨false, 0, false⟩
  | some e? =>
    let sleeps := stopLoop e? 0
    ⟨true, sleeps, !pollSees e? sleeps⟩

lemma stopLoop_none (i : Nat) : stopLoop none i = 40 := by
  by_cases h : 40 ≤ i
  · rw [stopLoop, if_pos h]
  · rw [stopLoop, if_neg h]
    simp only [pollSees, Bool.false_eq_true, if_false]
    exact stopLoop_none (i + 1)
termination_by 40 - i
decreasing_by omega

lemma stopLoop_some (e i : Nat) :
    stopLoop (some e) i =
      if 40 ≤ i then 40 else if e ≤ i then i else if e ≤ 40 then e else 40 := by
  by_cases h40 : 40 ≤ i
  · rw [stopLoop, if_pos h40, if_pos h40]
  · by_cases he : e ≤ i
    · rw [stopLoop, if_neg h40]
      simp [pollSees, he, h40]
    · rw [stopLoop, if_neg h40]
      have : pollSees (some e) i = false := by simp [pollSees]; omega
      rw [this]
      simp only [Bool.false_eq_true, if_false]
      rw [stopLoop_some e (i + 1)]
      split_ifs <;> omega
termination_by 40 - i
decreasing_by omega

/-- C7: stopping a live child always sends SIGTERM to its process group,
sleeps at most 40 grace polls of 0.1 s (so the stop procedure completes in
bounded time, never waiting indefinitely), and sends SIGKILL to the process
group exactly when the child has not exited by the end of the grace period
(check number 40, the last `poll()` the procedure can observe). -/
theorem claim_C7 : ∀ (e? : Option Nat),
    (stop_process (some e?)).sigtermSent = true ∧
    (stop_process (some e?)).sleeps ≤ 40 ∧
    ((stop_process (some e?)).sigkillSent = true ↔ pollSees e? 40 = false) := by
  intro e?
  refine ⟨rfl, ?_, ?_⟩
  · cases e? with
    | none => simp [stop_process, stopLoop_none]
    | some e =>
      simp only [stop_process, stopLoop_some]
      split_ifs <;> omega
  · cases e? with
    | none => simp [stop_process, stopLoop_none, pollSees]
    | some e =>
      simp only [stop_process, stopLoop_some, pollSees]
      split_ifs with h1 h2 h3 <;> simp <;> omega

/-- Environment oracle for one rotation slot: whether the launch succeeds
(`run_script` returns a process rather than `None`), the 0.5 s wait-loop
tick at which the child's early exit first becomes visible (`none` = the
child outlives its slot), and the 0.1 s grace poll of `stop_process` at
which its exit first becomes visible (`none` = it ignores SIGTERM). -/
structure SlotOracle where
  launchOk : Bool
  earlyExit : Option Nat
  stopExit : Option Nat
  deriving DecidableEq

/-- Observable events of a supervisor run, in program order. -/
inductive Ev
  | launched (idx : Nat)
  | launchFailed (idx : Nat)
  | waitTick
  | exitedEarly (idx : Nat)
  | timeUp (idx : Nat)
  | sigterm
  | stopTick
  | sigkill
  | termConfirmed (idx : Nat)
  | pauseAfterStop
  | slotDone (idx : Nat)
  deriving DecidableEq

/-- The per-slot wait loop of `main` in `i2c_rotator.py` (lines 131-146):
at tick `k` the loop has slept `k` times (elapsed = 0.5 k seconds); it first
checks `p.poll()` (break: early exit), then checks `elapsed >= duration`,
i.e. `k ≥ dur2` where `dur2 = 2 * duration` is the duration in half-second
ticks (break: time up), else sleeps 0.5 s.  Returns (ticks slept, whether
the loop ended by early exit). -/
def waitLoop (dur2 : Nat) (e? : Option Nat) (k : Nat) : Nat × Bool :=
  if pollSees e? k then (k, true)
  else if dur2 ≤ k then (k, false)
  else waitLoop dur2 e? (k + 1)
termination_by dur2 - k
decreasing_by omega

/-- The events emitted by `stop_process` on a live child handle. -/
def stopEvents (e? : Option Nat) : List Ev :=
  Ev.sigterm ::
    (List.replicate (stop_process (some e?)).sleeps Ev.stopTick ++
      if (stop_process (some e?)).sigkillSent then [Ev.sigkill] else [])

/-- One slot of the run-forever loop of `main` in `i2c_rotator.py`
(lines 127-151): launch the script; if the launch failed, break out of the
wait loop at its first check, call `stop_process(None)` (a no-op), pause and
advance; otherwise run the wait loop, then `stop_process` on the child —
whose return is the supervisor's confirmation that the child has terminated
(`termConfirmed`) — then pause (`SLEEP_AFTER_STOP`) and advance. -/
def runSlot (idx : Nat) (dur : Nat) (o : SlotOracle) : List Ev :=
  if o.launchOk then
    let w := waitLoop (2 * dur) o.earlyExit 0
    Ev.launched idx ::
      (List.replicate w.1 Ev.waitTick ++
        [if w.2 then Ev.exitedEarly idx else Ev.timeUp idx] ++
        stopEvents o.stopExit ++
        [Ev.termConfirmed idx, Ev.pauseAfterStop, Ev.slotDone idx])
  else
    [Ev.launchFailed idx, Ev.pauseAfterStop, Ev.slotDone idx]

/-- The run-forever loop of `main`, one `SlotOracle` per observed slot,
starting at rotation cursor `idx`; each slot uses the entry at
`idx % len(scripts)` and then increments the cursor. -/
def runRotation (scripts : List (String × Nat)) (idx : Nat) :
    List SlotOracle → List Ev
  | [] => []
  | o :: os =>
    runSlot idx (scripts.getD (idx % scripts.length) ("", 0)).2 o ++
      runRotation scripts (idx + 1) os

/-- Function `main` of `i2c_rotator.py`: with an empty normalized list it exits at
once (`sys.exit(1)`) and produces no events; otherwise it runs the rotation
from cursor 0. -/
def mainTrace (scripts : List (String × Nat)) (os : List SlotOracle) :
    List Ev :=
  if scripts = [] then [] else runRotation scripts 0 os

/-- The exclusivity contract as a scan of the event trace: `running` is
whether a supervisor-started child is currently in `Running` state; every
`launched` must find `running = false` (so the previous child's termination
was confirmed first), and only a confirmed termination clears the flag. -/
def exclusiveFrom (running : Bool) : List Ev → Bool
  | [] => true
  | Ev.launched _ :: r => !running && exclusiveFrom true r
  | Ev.termConfirmed _ :: r => exclusiveFrom false r
  | _ :: r => exclusiveFrom running r

/-- Does this event start a child (put one in `Running` state)? -/
def isLaunch (e : Ev) : Bool :=
  match e with
  | Ev.launched _ => true
  | _ => false

/-- Does this event confirm a child's termination? -/
def isConfirm (e : Ev) : Bool :=
  match e with
  | Ev.termConfirmed _ => true
  | _ => false

lemma exclusiveFrom_cons_skip (b : Bool) (e : Ev) (r : List Ev)
    (h1 : isLaunch e = false) (h2 : isConfirm e = false) :
    exclusiveFrom b (e :: r) = exclusiveFrom b r := by
  cases e with
  | launched i => exact absurd h1 (by simp [isLaunch])
  | termConfirmed i => exact absurd h2 (by simp [isConfirm])
  | launchFailed i => rfl
  | waitTick => rfl
  | exitedEarly i => rfl
  | timeUp i => rfl
  | sigterm => rfl
  | stopTick => rfl
  | sigkill => rfl
  | pauseAfterStop => rfl
  | slotDone i => rfl

lemma exclusiveFrom_replicate (b : Bool) (n : Nat) (e : Ev) (r : List Ev)
    (he1 : isLaunch e = false) (he2 : isConfirm e = false) :
    exclusiveFrom b (List.replicate n e ++ r) = exclusiveFrom b r := by
  induction n with
  | zero => rfl
  | succ m ih =>
    rw [List.replicate_succ, List.cons_append,
      exclusiveFrom_cons_skip b e _ he1 he2, ih]

lemma exclusiveFrom_runSlot (idx dur : Nat) (o : SlotOracle) (r : List Ev) :
    exclusiveFrom false (runSlot idx dur o ++ r) = exclusiveFrom false r := by
  rw [runSlot]
  by_cases h : o.launchOk
  · rw [if_pos h]
    rw [List.cons_append]
    rw [show ∀ s, exclusiveFrom false (Ev.launched idx :: s) =
      (!false && exclusiveFrom true s) from fun _ => rfl]
    rw [Bool.not_false, Bool.true_and]
    rw [List.append_assoc, List.append_assoc, List.append_assoc,
      exclusiveFrom_replicate true _ Ev.waitTick _ rfl rfl,
      List.singleton_append,
      exclusiveFrom_cons_skip true _ _
        (by by_cases hw : (waitLoop (2 * dur) o.earlyExit 0).2 <;>
              simp [hw, isLaunch])
        (by by_cases hw : (waitLoop (2 * dur) o.earlyExit 0).2 <;>
              simp [hw, isConfirm]),
      stopEvents, List.cons_append,
      exclusiveFrom_cons_skip true Ev.sigterm _ rfl rfl,
      List.append_assoc,
      exclusiveFrom_replicate true _ Ev.stopTick _ rfl rfl]
    have hkill : ∀ s : List Ev,
        exclusiveFrom true
          ((if (stop_process (some o.stopExit)).sigkillSent then [Ev.sigkill]
            else []) ++ s) = exclusiveFrom true s := by
      intro s
      by_cases hk : (stop_process (some o.stopExit)).sigkillSent
      · rw [if_pos hk, List.singleton_append,
          exclusiveFrom_cons_skip true Ev.sigkill _ rfl rfl]
      · rw [if_neg hk, List.nil_append]
    rw [hkill]
    rfl
  · rw [if_neg h]
    rfl

/-- C1: on every trace the supervisor can produce — for any configured
script list and any environment behaviour (launch failures, early exits,
children that ignore SIGTERM) — every launch happens with no prior child
still unconfirmed (`exclusiveFrom`), and consequently at every instant
(every prefix of the trace) the number of children launched exceeds the
number of confirmed terminations by at most one: at most one
supervisor-started child is ever in `Running` state. -/
theorem claim_C1 : ∀ (scripts : List (String × Nat)) (os : List SlotOracle)
    (n : Nat),
    exclusiveFrom false (mainTrace scripts os) = true ∧
    ((mainTrace scripts os).take n).countP isLaunch ≤
      ((mainTrace scripts os).take n).countP isConfirm + 1 := by
  have hrot : ∀ (os : List SlotOracle) (scripts : List (String × Nat))
      (idx : Nat), exclusiveFrom false (runRotation scripts idx os) = true := by
    intro os
    induction os with
    | nil => intro scripts idx; rfl
    | cons o rest ih =>
      intro scripts idx
      rw [runRotation, exclusiveFrom_runSlot]
      exact ih scripts (idx + 1)
  have hcount : ∀ (l : List Ev) (b : Bool), exclusiveFrom b l = true →
      ∀ n, (l.take n).countP isLaunch + (if b then 1 else 0) ≤
        (l.take n).countP isConfirm + 1 := by
    intro l
    induction l with
    | nil =>
      intro b _ n
      simp only [List.take_nil, List.countP_nil]
      split_ifs <;> omega
    | cons e rest ih =>
      intro b hb n
      cases n with
      | zero =>
        simp only [List.take_zero, List.countP_nil]
        split_ifs <;> omega
      | succ m =>
        rw [List.take_succ_cons, List.countP_cons, List.countP_cons]
        by_cases hL : isLaunch e = true
        · obtain ⟨i, rfl⟩ : ∃ i, e = Ev.launched i := by
            cases e <;> simp [isLaunch] at hL ⊢
          rw [show exclusiveFrom b (Ev.launched i :: rest) =
            (!b && exclusiveFrom true rest) from rfl, Bool.and_eq_true] at hb
          have hb1 : b = false := by
            cases b
            · rfl
            · simp at hb
          have h2 := ih true hb.2 m
          subst hb1
          simp only [isLaunch, isConfirm, if_true, if_false] at h2 ⊢
          simp at h2 ⊢
          omega
        · by_cases hC : isConfirm e = true
          · obtain ⟨i, rfl⟩ : ∃ i, e = Ev.termConfirmed i := by
              cases e <;> simp [isConfirm] at hC ⊢
            rw [show exclusiveFrom b (Ev.termConfirmed i :: rest) =
              exclusiveFrom false rest from rfl] at hb
            have h2 := ih false hb m
            simp only [isConfirm, isLaunch] at h2 ⊢
            simp at h2 ⊢
            split_ifs <;> omega
          · have he1 : isLaunch e = false := by
              revert hL
              cases isLaunch e <;> simp
            have he2 : isConfirm e = false := by
              revert hC
              cases isConfirm e <;> simp
            rw [exclusiveFrom_cons_skip b e rest he1 he2] at hb
            have h2 := ih b hb m
            simp only [he1, he2]
            simp
            split_ifs at h2 ⊢ <;> omega
  intro scripts os n
  have hex : exclusiveFrom false (mainTrace scripts os) = true := by
    rw [mainTrace]
    by_cases h : scripts = []
    · rw [if_pos h]
      rfl
    · rw [if_neg h]
      exact hrot os scripts 0
  refine ⟨hex, ?_⟩
  have := hcount (mainTrace scripts os) false hex n
  simpa using this

/-- C8: when a slot's launch fails (`run_script` returns `None`), the
supervisor logs the failure, performs no duration wait at all (no
`waitTick`), pauses the usual settle delay, advances the cursor to the next
entry, and continues with the rest of the rotation instead of terminating. -/
theorem claim_C8 : ∀ (scripts : List (String × Nat)) (idx : Nat)
    (o : SlotOracle) (os : List SlotOracle), o.launchOk = false →
    runRotation scripts idx (o :: os) =
      Ev.launchFailed idx :: Ev.pauseAfterStop :: Ev.slotDone idx ::
        runRotation scripts (idx + 1) os := by
  intro scripts idx o os h
  rw [runRotation, runSlot, if_neg (by simp [h])]
  rfl

theorem claim_C8_witness :
    runRotation [("/root/I2C/sysmon_lcd.py", 60)] 0
        [⟨false, none, none⟩, ⟨true, some 0, some 0⟩] =
      Ev.launchFailed 0 :: Ev.pauseAfterStop :: Ev.slotDone 0 ::
        runRotation [("/root/I2C/sysmon_lcd.py", 60)] 1
          [⟨true, some 0, some 0⟩] :=
  claim_C8 [("/root/I2C/sysmon_lcd.py", 60)] 0 ⟨false, none, none⟩
    [⟨true, some 0, some 0⟩] rfl

end I2C
